import Mathlib

/-!
Shallow embedding of the message archive of `src/repos/messages.rs`
(struct `ChatModel`, struct `FsMessageRepo`, trait `MessageRepo`, and the
free functions `cosine_similarity`, `get_root_path`, `get_path_for_date`,
`get_from_fs`), together with theorems settling the behavioural claims
about it.

Modelling conventions:
  * The filesystem visible to the repository is a `St` value: a map from
    (user, date-directory-name) to the state of that day's
    `messages.json`, the user root's subdirectory listing, and two
    environment predicates telling which `create_dir_all` and
    `std::fs::write` calls succeed.
  * A Rust panic (`.unwrap()` on `Err`/`None`) is the `Outcome.panicked`
    value; all repository operations that can panic return an `Outcome`.
  * `std::collections::HashMap<(String, String), ChatModel>` is an
    association list in which `insert` erases the key before consing, so
    lookup and per-key entry counts agree with the map semantics.
  * Rust `f32` is modelled by Lean's `Float`; every claim proved about
    scores is structural (which formula is applied to which vectors), so
    the width difference is immaterial.
  * `chrono::NaiveDate` is a year/month/day triple ordered
    chronologically; `format("%Y-%m-%d")` is zero-padded printing and
    `parse_from_str(_, "%Y-%m-%d")` accepts exactly the 4-2-2 digit shape
    with month in 1..12 and day in 1..31 (chrono additionally checks
    month-specific day counts; no claim exercises that corner).
-/

namespace Muninn

/-- `ChatModel` from `src/repos/messages.rs` lines 6-12. -/
structure ChatModel where
  role : String
  content : String
  hash : String
  embedding : List Float

/-- Result of a Rust computation that may `panic!` via `.unwrap()`. -/
inductive Outcome (α : Type) where
  | ok (a : α)
  | panicked
deriving Inhabited

/-- State of one day file as `std::fs::read_to_string` + serde see it:
`none` is a read error (file absent or unreadable); `unparseable` is a file
that reads but fails `serde_json::from_str`; `parseable l` is a well-formed
JSON array of chats. -/
inductive FileContent where
  | parseable (chats : List ChatModel)
  | unparseable

/-- `chrono::NaiveDate`. -/
structure Date where
  year : Nat
  month : Nat
  day : Nat
deriving DecidableEq

/-- Zero-padded decimal printing, as chrono's `%Y` / `%m` / `%d`. -/
def padNat (w n : Nat) : String :=
  let s := toString n
  String.mk (List.replicate (w - s.length) '0') ++ s

/-- `date.format("%Y-%m-%d")` (line 64 of `messages.rs`). -/
def formatDate (d : Date) : String :=
  padNat 4 d.year ++ "-" ++ padNat 2 d.month ++ "-" ++ padNat 2 d.day

/-- Split a character list at each `'-'` (the separator structure of the
`%Y-%m-%d` format). -/
def splitDash : List Char → List (List Char)
  | [] => [[]]
  | c :: cs =>
    if c = '-' then [] :: splitDash cs
    else
      match splitDash cs with
      | [] => [[c]]
      | g :: gs => (c :: g) :: gs

/-- Value of a digit string. -/
def digitsVal (cs : List Char) : Nat :=
  cs.foldl (fun a c => 10 * a + (c.toNat - '0'.toNat)) 0

/-- `NaiveDate::parse_from_str(s, "%Y-%m-%d")` (line 144): `none` models
the `Err` case that line 144's `.unwrap()` turns into a panic. -/
def parseDate (s : String) : Option Date :=
  match splitDash s.data with
  | [ys, ms, ds] =>
    if ys.length = 4 ∧ ys.all Char.isDigit ∧
       ms.length = 2 ∧ ms.all Char.isDigit ∧
       ds.length = 2 ∧ ds.all Char.isDigit then
      let m := digitsVal ms
      let d := digitsVal ds
      if 1 ≤ m ∧ m ≤ 12 ∧ 1 ≤ d ∧ d ≤ 31 then
        some ⟨digitsVal ys, m, d⟩
      else none
    else none
  | _ => none

/-- Chronological comparison of `NaiveDate`s (`Ord` on chrono dates). -/
def dateLe (a b : Date) : Bool :=
  decide (a.year < b.year ∨
    (a.year = b.year ∧ (a.month < b.month ∨
      (a.month = b.month ∧ a.day ≤ b.day))))

/-- `Iterator::max` over a vector of dates (line 149): `none` on an empty
vector (which line 149's `.unwrap()` turns into a panic); on ties the
later element wins, as in Rust. -/
def rustMax : List Date → Option Date
  | [] => none
  | d :: ds => some (ds.foldl (fun m x => if dateLe m x then x else m) d)

/-- Key of the `FsMessageRepo::memory` map: `(chat.hash, user)`. -/
abbrev Key := String × String

/-- `FsMessageRepo::memory`, an association list with map semantics. -/
abbrev Cache := List (Key × ChatModel)

/-- Remove every entry with the given key (used to give `insert` the
overwrite semantics of `HashMap::insert`). -/
def Cache.eraseKey : Cache → Key → Cache
  | [], _ => []
  | e :: es, k => if e.1 = k then Cache.eraseKey es k else e :: Cache.eraseKey es k

/-- `HashMap::insert`: at most one entry per key survives. -/
def Cache.insert (c : Cache) (k : Key) (v : ChatModel) : Cache :=
  (k, v) :: Cache.eraseKey c k

/-- `HashMap::get`. -/
def Cache.find? : Cache → Key → Option ChatModel
  | [], _ => none
  | e :: es, k => if e.1 = k then some e.2 else Cache.find? es k

/-- Number of entries stored under a key. -/
def Cache.countKey : Cache → Key → Nat
  | [], _ => 0
  | e :: es, k => (if e.1 = k then 1 else 0) + Cache.countKey es k

/-- The repository instance together with the filesystem it can observe.
`files u n` is the state of `{root}/muninn/{u}/{n}/messages.json`;
`dirs u` is `read_dir` on `{root}/muninn/{u}` (`none` = error, `some
names` = the subdirectory names); `canCreate u n` tells whether
`create_dir_all` for that day directory succeeds; `writeOk u n` tells
whether `std::fs::write` of that day file succeeds. -/
structure St where
  cache : Cache
  files : String → String → Option FileContent
  dirs : String → Option (List String)
  canCreate : String → String → Bool
  writeOk : String → String → Bool

/-- `get_from_fs` (lines 68-74): a read error yields `[]`, a successful
read feeds serde whose failure is `.unwrap()`-panicked (line 70). -/
def get_from_fs : Option FileContent → Outcome (List ChatModel)
  | none => .ok []
  | some (.parseable chats) => .ok chats
  | some .unparseable => .panicked

/-- Record a successful `std::fs::write` of a day file. -/
def updFiles (f : String → String → Option FileContent) (u n : String)
    (l : List ChatModel) : String → String → Option FileContent :=
  fun v m => if v = u ∧ m = n then some (.parseable l) else f v m

/-- Record a successful `create_dir_all` of a day directory: the user root
now exists and lists the new name. -/
def updDirs (g : String → Option (List String)) (u n : String) :
    String → Option (List String) :=
  fun v => if v = u then
    some (match g u with
      | none => [n]
      | some l => if n ∈ l then l else l ++ [n])
  else g v

/-- `FsMessageRepo::save_chat` (lines 77-98). Inserts into the cache,
panics if `create_dir_all` fails (line 84's `.unwrap()`), reads the
existing day file (panicking on unparseable contents), appends the chat
and rewrites the whole file; a write error is logged and swallowed
(lines 91-96) and the chat is returned regardless. -/
def save_chat (s : St) (date : Date) (user : String) (chat : ChatModel) :
    Outcome (St × ChatModel) :=
  let dname := formatDate date
  let cache' := Cache.insert s.cache (chat.hash, user) chat
  if s.canCreate user dname then
    match get_from_fs (s.files user dname) with
    | .panicked => .panicked
    | .ok chats =>
      let chats' := chats ++ [chat]
      .ok ({ s with
              cache := cache'
              dirs := updDirs s.dirs user dname
              files := if s.writeOk user dname
                then updFiles s.files user dname chats'
                else s.files },
           chat)
  else .panicked

/-- Result of `get_chat`: `Ok(chat)` or the `Err(())` logged as
"Chat not found". -/
inductive GetResult where
  | found (chat : ChatModel)
  | notFound

/-- Merge every entry of a day file into the cache keyed by
`(chat.hash, user)` (lines 109-112). -/
def mergeAll (c : Cache) (user : String) (l : List ChatModel) : Cache :=
  l.foldl (fun acc chat => Cache.insert acc (chat.hash, user) chat) c

/-- `FsMessageRepo::get_chat` (lines 100-122). `today` stands for
`chrono::Local::now().date_naive()`. On a cache miss only the current
day's file is loaded, merged into the cache, and the lookup retried. -/
def get_chat (s : St) (today : Date) (user id : String) :
    Outcome (St × GetResult) :=
  let key : Key := (id, user)
  match Cache.find? s.cache key with
  | some chat => .ok (s, .found chat)
  | none =>
    match get_from_fs (s.files user (formatDate today)) with
    | .panicked => .panicked
    | .ok chats =>
      let cache' := mergeAll s.cache user chats
      match Cache.find? cache' key with
      | some chat => .ok ({ s with cache := cache' }, .found chat)
      | none => .ok ({ s with cache := cache' }, .notFound)

/-- Parse every subdirectory name as a date (lines 140-147); any name
that fails to parse panics through line 144's `.unwrap()`. -/
def parseAllDates : List String → Outcome (List Date)
  | [] => .ok []
  | n :: ns =>
    match parseDate n with
    | none => .panicked
    | some d =>
      match parseAllDates ns with
      | .panicked => .panicked
      | .ok ds => .ok (d :: ds)

/-- The trait method `FsMessageRepo::get_all_for_user` (lines 124-156).
Loads today's file; if that is empty, lists the user root (a `read_dir`
error returns `[]`), parses every subdirectory name as a date, takes the
most recent date (panicking when there is none) and loads that single
day's file. -/
def get_all_for_user (s : St) (today : Date) (user : String) :
    Outcome (List ChatModel) :=
  match get_from_fs (s.files user (formatDate today)) with
  | .panicked => .panicked
  | .ok r =>
    if r.isEmpty then
      match s.dirs user with
      | none => .ok []
      | some names =>
        match parseAllDates names with
        | .panicked => .panicked
        | .ok dates =>
          match rustMax dates with
          | none => .panicked
          | some d => get_from_fs (s.files user (formatDate d))
    else .ok r

/-- The inherent method `FsMessageRepo::get_all_for_user` (lines 35-43):
a scan of the in-memory map collecting every chat stored under the user.
Inside `impl MessageRepo for FsMessageRepo` a call `self.get_all_for_user`
resolves to this inherent method, not to the trait method above. -/
def get_all_for_user_inherent (s : St) (user : String) : List ChatModel :=
  (s.cache.filter (fun e => e.1.2 = user)).map (·.2)

/-- `v.iter().zip(w).map(|(a, b)| a * b).sum::<f32>()` (line 47). -/
def dot_product (v w : List Float) : Float :=
  (v.zip w).foldl (fun acc p => acc + p.1 * p.2) 0

/-- `(v.iter().map(|a| a.powi(2)).sum::<f32>()).sqrt()` (lines 48-49). -/
def magnitude (v : List Float) : Float :=
  Float.sqrt (v.foldl (fun acc a => acc + a * a) 0)

/-- `cosine_similarity` (lines 46-52). -/
def cosine_similarity (v1 v2 : List Float) : Float :=
  dot_product v1 v2 / (magnitude v1 * magnitude v2)

/-- `FsMessageRepo::embeddings_search_for_user` (lines 158-172): ranks
the chats returned by the *inherent* `get_all_for_user` (the cache scan)
against the query vector, in order, with no sorting or truncation. -/
def embeddings_search_for_user (s : St) (user : String)
    (query_vector : List Float) : List (Float × ChatModel) :=
  (get_all_for_user_inherent s user).map
    (fun chat => (cosine_similarity chat.embedding query_vector, chat))

/-- Project an operation outcome to its `GetResult` part. -/
def resultOf : Outcome (St × GetResult) → Outcome GetResult
  | .ok p => .ok p.2
  | .panicked => .panicked

/-- A run of `save_chat` calls, all issued for one user; a panic in any
save aborts the run. -/
def runSaves (user : String) : St → List (Date × ChatModel) → Outcome St
  | s, [] => .ok s
  | s, (d, m) :: evs =>
    match save_chat s d user m with
    | .panicked => .panicked
    | .ok p => runSaves user p.1 evs

/-! Concrete fixtures used by witnesses and counterexamples. -/

/-- The concrete message of the spec's §8 scenario (embedding left empty;
no claim depends on particular float entries). -/
def mAlice : ChatModel := ⟨"user", "Hello", "h1", []⟩

/-- A second message sharing `mAlice`'s hash. -/
def mAliceBis : ChatModel := ⟨"assistant", "Hi there", "h1", []⟩

/-- A message stored under an old date. -/
def mOld : ChatModel := ⟨"user", "old message", "h0", []⟩

/-- A repository over a pristine filesystem where every directory
creation and file write succeeds. -/
def emptySt : St :=
  ⟨[], fun _ _ => none, fun _ => none, fun _ _ => true, fun _ _ => true⟩

/-- A filesystem on which every `create_dir_all` fails. -/
def stDirFail : St := { emptySt with canCreate := fun _ _ => false }

/-- A filesystem on which every `std::fs::write` fails. -/
def stWriteFail : St := { emptySt with writeOk := fun _ _ => false }

/-- Disk state for the fallback counterexample: data only under
`2024-01-01`, an empty newer directory `2024-01-02`, nothing today. -/
def stTwoDays : St :=
  { emptySt with
      files := fun v n =>
        if v = "alice" ∧ n = "2024-01-01" then some (.parseable [mOld]) else none
      dirs := fun v =>
        if v = "alice" then some ["2024-01-01", "2024-01-02"] else none }

/-- A repository whose cache holds one chat for alice while the disk is
empty. -/
def stCachedOnly : St := { emptySt with cache := [(("h1", "alice"), mAlice)] }

/-- A user root containing a subdirectory whose name is not a date. -/
def stBadDir : St :=
  { emptySt with dirs := fun v => if v = "alice" then some ["not-a-date"] else none }

/-- Disk state of a fresh process after `mOld` was saved on 2024-01-01:
empty cache, data only under the past date directory. -/
def stColdStart : St :=
  { emptySt with
      files := fun v n =>
        if v = "alice" ∧ n = "2024-01-01" then some (.parseable [mOld]) else none
      dirs := fun v => if v = "alice" then some ["2024-01-01"] else none }

end Muninn

namespace Muninn

/-! Cache lemmas. -/

theorem Cache.find?_eraseKey_ne (c : Cache) (k k' : Key) (h : k' ≠ k) :
    Cache.find? (Cache.eraseKey c k) k' = Cache.find? c k' := by
  induction c with
  | nil => rfl
  | cons e es ih =>
    by_cases he : e.1 = k
    · simp only [Cache.eraseKey, he, if_true, Cache.find?]
      rw [ih, if_neg (fun hk => h hk.symm)]
    · simp only [Cache.eraseKey, Cache.find?, he, if_false, ih]

theorem Cache.find?_insert_self (c : Cache) (k : Key) (v : ChatModel) :
    Cache.find? (Cache.insert c k v) k = some v := by
  simp [Cache.insert, Cache.find?]

theorem Cache.find?_insert_ne (c : Cache) (k k' : Key) (v : ChatModel)
    (h : k' ≠ k) :
    Cache.find? (Cache.insert c k v) k' = Cache.find? c k' := by
  simp only [Cache.insert, Cache.find?]
  rw [if_neg (by exact fun hk => h hk.symm), Cache.find?_eraseKey_ne c k k' h]

theorem Cache.countKey_eraseKey (c : Cache) (k : Key) :
    Cache.countKey (Cache.eraseKey c k) k = 0 := by
  induction c with
  | nil => rfl
  | cons e es ih =>
    by_cases he : e.1 = k
    · simpa [Cache.eraseKey, he] using ih
    · simpa [Cache.eraseKey, Cache.countKey, he] using ih

theorem Cache.countKey_insert (c : Cache) (k : Key) (v : ChatModel) :
    Cache.countKey (Cache.insert c k v) k = 1 := by
  simp [Cache.insert, Cache.countKey, Cache.countKey_eraseKey]

theorem Cache.find?_insert_isSome (c : Cache) (k k' : Key) (v : ChatModel)
    (h : (Cache.find? c k').isSome) :
    (Cache.find? (Cache.insert c k v) k').isSome := by
  by_cases hk : k' = k
  · subst hk; simp [Cache.find?_insert_self]
  · rwa [Cache.find?_insert_ne c k k' v hk]

theorem mergeAll_find?_isSome (u : String) (l : List ChatModel)
    (c : Cache) (k : Key) (h : (Cache.find? c k).isSome) :
    (Cache.find? (mergeAll c u l) k).isSome := by
  induction l generalizing c with
  | nil => exact h
  | cons x xs ih =>
    exact ih _ (Cache.find?_insert_isSome _ _ _ _ h)

theorem mergeAll_mem_isSome (u : String) (l : List ChatModel)
    (c : Cache) (m : ChatModel) (hm : m ∈ l) :
    (Cache.find? (mergeAll c u l) (m.hash, u)).isSome := by
  induction l generalizing c with
  | nil => cases hm
  | cons x xs ih =>
    rcases List.mem_cons.mp hm with h | h
    · subst h
      exact mergeAll_find?_isSome u xs _ _
        (by simp [Cache.find?_insert_self])
    · exact ih _ h

theorem mergeAll_find?_of_not_mem (u : String) (l : List ChatModel)
    (c : Cache) (id : String) (h : ∀ m ∈ l, m.hash ≠ id) :
    Cache.find? (mergeAll c u l) (id, u) = Cache.find? c (id, u) := by
  induction l generalizing c with
  | nil => rfl
  | cons x xs ih =>
    have hx : ((id, u) : Key) ≠ (x.hash, u) := by
      intro hk
      exact h x (List.mem_cons_self x xs) (by cases hk; rfl)
    calc Cache.find? (mergeAll (Cache.insert c (x.hash, u) x) u xs) (id, u)
        = Cache.find? (Cache.insert c (x.hash, u) x) (id, u) :=
          ih _ (fun m hm => h m (List.mem_cons_of_mem _ hm))
      _ = Cache.find? c (id, u) := Cache.find?_insert_ne _ _ _ _ hx

end Muninn

namespace Muninn

/-- C1: within one process, a successful `save_chat date user m` followed
by `get_chat user m.hash` returns a chat whose role, content and hash
equal those of the saved message (the get is answered from the cache
entry written by the save). -/
theorem save_then_get_roundtrip (s : St) (d today : Date) (u : String)
    (m : ChatModel) (l : List ChatModel)
    (hcc : s.canCreate u (formatDate d) = true)
    (hfile : get_from_fs (s.files u (formatDate d)) = .ok l) :
    ∃ s', save_chat s d u m = .ok (s', m) ∧
      ∃ r, get_chat s' today u m.hash = .ok (s', .found r) ∧
        r.role = m.role ∧ r.content = m.content ∧ r.hash = m.hash := by
  have h1 : ∃ s', save_chat s d u m = .ok (s', m) ∧
      s'.cache = Cache.insert s.cache (m.hash, u) m := by
    simp only [save_chat, hcc, if_true, hfile]
    exact ⟨_, rfl, rfl⟩
  obtain ⟨s', hs, hc⟩ := h1
  refine ⟨s', hs, m, ?_, rfl, rfl, rfl⟩
  simp only [get_chat, hc, Cache.find?_insert_self]

/-- C1 witness: the round-trip instantiated on the pristine filesystem
with the spec's concrete message. -/
theorem save_then_get_roundtrip_witness :
    ∃ s', save_chat emptySt ⟨2024, 1, 1⟩ "alice" mAlice = .ok (s', mAlice) ∧
      ∃ r, get_chat s' ⟨2024, 1, 1⟩ "alice" mAlice.hash = .ok (s', .found r) ∧
        r.role = mAlice.role ∧ r.content = mAlice.content ∧
        r.hash = mAlice.hash :=
  save_then_get_roundtrip emptySt ⟨2024, 1, 1⟩ ⟨2024, 1, 1⟩ "alice" mAlice []
    rfl rfl

/-- C3: what `save_chat` actually does on storage failures. When
`create_dir_all` fails the call panics (line 84's `.unwrap()`), instead
of returning a `StorageError`; when `std::fs::write` fails the error is
logged and swallowed and the call reports success while nothing reached
the disk (lines 91-96). -/
theorem save_error_handling_divergence :
    save_chat stDirFail ⟨2024, 1, 1⟩ "alice" mAlice = .panicked ∧
    ∃ out, save_chat stWriteFail ⟨2024, 1, 1⟩ "alice" mAlice = .ok (out, mAlice) ∧
      out.files "alice" (formatDate ⟨2024, 1, 1⟩) = none :=
  ⟨rfl, _, rfl, rfl⟩

/-- C4 counterexample: a day file that exists but cannot be parsed is
*not* treated like an absent file; `get_from_fs` panics on it (line 70's
`.unwrap()`) instead of returning the empty sequence. -/
theorem unparseable_day_file_panics :
    get_from_fs (some .unparseable) = .panicked ∧
    get_from_fs (some .unparseable) ≠ .ok ([] : List ChatModel) :=
  ⟨rfl, fun h => by simp [get_from_fs] at h⟩

/-- C4 amended: a day file that cannot be *read* (absent or unreadable)
is treated as empty; a file that reads but cannot be parsed makes the
read panic. -/
theorem read_day_file_amended :
    get_from_fs none = .ok ([] : List ChatModel) ∧
    (∀ l, get_from_fs (some (.parseable l)) = .ok l) ∧
    get_from_fs (some .unparseable) = .panicked :=
  ⟨rfl, fun _ => rfl, rfl⟩

/-- C6: two successful saves with the same `(hash, user)` leave exactly
one cache entry under that key but append two records to the day file. -/
theorem duplicate_save_cache_once_file_twice (s : St) (d : Date)
    (u : String) (m1 m2 : ChatModel) (l : List ChatModel)
    (hh : m2.hash = m1.hash)
    (hcc : s.canCreate u (formatDate d) = true)
    (hw : s.writeOk u (formatDate d) = true)
    (hfile : get_from_fs (s.files u (formatDate d)) = .ok l) :
    ∃ s1 s2, save_chat s d u m1 = .ok (s1, m1) ∧
      save_chat s1 d u m2 = .ok (s2, m2) ∧
      Cache.countKey s2.cache (m1.hash, u) = 1 ∧
      s2.files u (formatDate d) = some (.parseable (l ++ [m1, m2])) := by
  have h1 : ∃ s1, save_chat s d u m1 = .ok (s1, m1) ∧
      s1.cache = Cache.insert s.cache (m1.hash, u) m1 ∧
      s1.files = updFiles s.files u (formatDate d) (l ++ [m1]) ∧
      s1.canCreate = s.canCreate ∧ s1.writeOk = s.writeOk := by
    simp only [save_chat, hcc, if_true, hfile, hw]
    exact ⟨_, rfl, rfl, rfl, rfl, rfl⟩
  obtain ⟨s1, hs1, hc1, hf1, hcc1, hw1⟩ := h1
  have hfile1 : get_from_fs (s1.files u (formatDate d)) = .ok (l ++ [m1]) := by
    simp [hf1, updFiles, get_from_fs]
  have h2 : ∃ s2, save_chat s1 d u m2 = .ok (s2, m2) ∧
      s2.cache = Cache.insert s1.cache (m2.hash, u) m2 ∧
      s2.files = updFiles s1.files u (formatDate d) ((l ++ [m1]) ++ [m2]) := by
    simp only [save_chat, hcc1, hcc, if_true, hfile1, hw1, hw]
    exact ⟨_, rfl, rfl, rfl⟩
  obtain ⟨s2, hs2, hc2, hf2⟩ := h2
  refine ⟨s1, s2, hs1, hs2, ?_, ?_⟩
  · rw [hc2, hh, Cache.countKey_insert]
  · simp [hf2, updFiles, List.append_assoc]

/-- C6 witness: two saves of hash `"h1"` for alice on the pristine
filesystem. -/
theorem duplicate_save_cache_once_file_twice_witness :
    ∃ s1 s2, save_chat emptySt ⟨2024, 1, 1⟩ "alice" mAlice = .ok (s1, mAlice) ∧
      save_chat s1 ⟨2024, 1, 1⟩ "alice" mAliceBis = .ok (s2, mAliceBis) ∧
      Cache.countKey s2.cache (mAlice.hash, "alice") = 1 ∧
      s2.files "alice" (formatDate ⟨2024, 1, 1⟩) =
        some (.parseable ([] ++ [mAlice, mAliceBis])) :=
  duplicate_save_cache_once_file_twice emptySt ⟨2024, 1, 1⟩ "alice"
    mAlice mAliceBis [] rfl rfl rfl rfl

end Muninn

namespace Muninn

theorem parseAllDates_panicked_of_mem (names : List String) (n : String)
    (hmem : n ∈ names) (hp : parseDate n = none) :
    parseAllDates names = .panicked := by
  induction names with
  | nil => cases hmem
  | cons x xs ih =>
    rcases List.mem_cons.mp hmem with h | h
    · subst h; simp only [parseAllDates, hp]
    · cases hx : parseDate x with
      | none => simp only [parseAllDates, hx]
      | some d => simp only [parseAllDates, hx, ih h]

/-- C2 counterexample: alice has data only under `2024-01-01`, an empty
more recent directory `2024-01-02`, and nothing today; the fallback loads
the single most recent directory (`2024-01-02`) and returns the empty
sequence, not the contents `[mOld]` of the most recent *non-empty* past
directory as the claim requires. -/
theorem list_all_fallback_counterexample :
    get_all_for_user stTwoDays ⟨2024, 1, 5⟩ "alice" = .ok [] ∧
    Outcome.ok ([] : List ChatModel) ≠ .ok [mOld] := by
  refine ⟨rfl, fun h => ?_⟩
  simp at h

/-- C2 amended: when today's file reads empty, `get_all_for_user`
(a) returns `[]` when the user root cannot be listed, (b) panics when the
root lists no subdirectories, and (c) otherwise — every name parsing as a
date — loads the single most recent date directory, whether or not its
file has data (so an older directory's data is never reached). -/
theorem list_all_fallback_amended (s : St) (today : Date) (u : String)
    (hempty : get_from_fs (s.files u (formatDate today)) = .ok []) :
    (s.dirs u = none → get_all_for_user s today u = .ok []) ∧
    (s.dirs u = some [] → get_all_for_user s today u = .panicked) ∧
    (∀ names dates dmax, s.dirs u = some names →
      parseAllDates names = .ok dates → rustMax dates = some dmax →
      get_all_for_user s today u = get_from_fs (s.files u (formatDate dmax))) := by
  refine ⟨?_, ?_, ?_⟩
  · intro hd
    simp only [get_all_for_user, hempty, List.isEmpty_nil, if_true, hd]
  · intro hd
    simp only [get_all_for_user, hempty, List.isEmpty_nil, if_true, hd,
      parseAllDates, rustMax]
  · intro names dates dmax hd hp hm
    simp only [get_all_for_user, hempty, List.isEmpty_nil, if_true, hd, hp, hm]

/-- C2 witness: the amended fallback instantiated on `stTwoDays`: the
directory picked is `2024-01-02`, the most recent one, and the result is
whatever that day's file holds. -/
theorem list_all_fallback_amended_witness :
    get_all_for_user stTwoDays ⟨2024, 1, 5⟩ "alice" =
      get_from_fs (stTwoDays.files "alice" (formatDate ⟨2024, 1, 2⟩)) :=
  (list_all_fallback_amended stTwoDays ⟨2024, 1, 5⟩ "alice" rfl).2.2
    ["2024-01-01", "2024-01-02"] [⟨2024, 1, 1⟩, ⟨2024, 1, 2⟩] ⟨2024, 1, 2⟩
    rfl rfl rfl

/-- C9: when today's file reads empty and the user root contains a
subdirectory whose name does not parse as `%Y-%m-%d`, `get_all_for_user`
panics (line 144's `.unwrap()`) instead of returning a result. -/
theorem list_all_panics_on_nondate_dir (s : St) (today : Date)
    (u : String) (names : List String) (n : String)
    (hempty : get_from_fs (s.files u (formatDate today)) = .ok [])
    (hdirs : s.dirs u = some names) (hmem : n ∈ names)
    (hparse : parseDate n = none) :
    get_all_for_user s today u = .panicked := by
  simp only [get_all_for_user, hempty, List.isEmpty_nil, if_true, hdirs,
    parseAllDates_panicked_of_mem names n hmem hparse]

/-- C9 witness: the subdirectory `not-a-date` makes the listing panic. -/
theorem list_all_panics_on_nondate_dir_witness :
    get_all_for_user stBadDir ⟨2024, 1, 5⟩ "alice" = .panicked :=
  list_all_panics_on_nondate_dir stBadDir ⟨2024, 1, 5⟩ "alice"
    ["not-a-date"] "not-a-date" rfl rfl (List.mem_cons_self _ _) rfl

end Muninn

namespace Muninn

/-- C5: `get_chat`'s answer depends only on the cache and on the current
day's file of the queried user (it loads no other file); consequently in
a fresh process (empty cache) a message persisted under a past date is
`NotFound` through `get_chat`, while `get_all_for_user` still returns it
through the date-folder fallback. -/
theorem get_only_today_and_cold_start_asymmetry :
    (∀ s₁ s₂ : St, ∀ today : Date, ∀ u id : String,
      s₁.cache = s₂.cache →
      s₁.files u (formatDate today) = s₂.files u (formatDate today) →
      resultOf (get_chat s₁ today u id) = resultOf (get_chat s₂ today u id)) ∧
    (∀ s : St, ∀ today dpast : Date, ∀ u dname : String, ∀ m : ChatModel,
      s.cache = [] →
      s.files u (formatDate today) = none →
      s.dirs u = some [dname] →
      parseDate dname = some dpast →
      formatDate dpast = dname →
      s.files u dname = some (.parseable [m]) →
      (∃ s', get_chat s today u m.hash = .ok (s', .notFound)) ∧
      get_all_for_user s today u = .ok [m]) := by
  constructor
  · intro s₁ s₂ today u id h1 h2
    cases hf : Cache.find? s₂.cache (id, u) with
    | some c => simp only [get_chat, h1, h2, hf, resultOf]
    | none =>
      cases hg : get_from_fs (s₂.files u (formatDate today)) with
      | panicked => simp only [get_chat, h1, h2, hf, hg, resultOf]
      | ok chats =>
        cases hr : Cache.find? (mergeAll s₂.cache u chats) (id, u) with
        | some c => simp only [get_chat, h1, h2, hf, hg, hr, resultOf]
        | none => simp only [get_chat, h1, h2, hf, hg, hr, resultOf]
  · intro s today dpast u dname m hc hft hd hp hfmt hfile
    constructor
    · have hget : get_chat s today u m.hash =
          .ok ({ s with cache := mergeAll s.cache u [] }, .notFound) := by
        simp only [get_chat, hc, Cache.find?, hft, get_from_fs, mergeAll,
          List.foldl]
      exact ⟨_, hget⟩
    · simp only [get_all_for_user, hft, get_from_fs, List.isEmpty_nil,
        if_true, hd, parseAllDates, hp, rustMax, List.foldl, hfmt, hfile]

/-- C5 witness: on the cold-start state holding only `mOld` under
`2024-01-01` (today being `2024-01-05`), `get_chat` answers exactly as on
the pristine state, `get_chat` for `mOld.hash` is `NotFound`, and
`get_all_for_user` still returns `[mOld]`. -/
theorem get_only_today_and_cold_start_asymmetry_witness :
    (resultOf (get_chat stColdStart ⟨2024, 1, 5⟩ "alice" "h0") =
      resultOf (get_chat emptySt ⟨2024, 1, 5⟩ "alice" "h0")) ∧
    ((∃ s', get_chat stColdStart ⟨2024, 1, 5⟩ "alice" mOld.hash =
        .ok (s', .notFound)) ∧
      get_all_for_user stColdStart ⟨2024, 1, 5⟩ "alice" = .ok [mOld]) :=
  ⟨get_only_today_and_cold_start_asymmetry.1 stColdStart emptySt
      ⟨2024, 1, 5⟩ "alice" "h0" rfl rfl,
    get_only_today_and_cold_start_asymmetry.2 stColdStart
      ⟨2024, 1, 5⟩ ⟨2024, 1, 1⟩ "alice" "2024-01-01" mOld
      rfl rfl rfl rfl rfl rfl⟩

/-- C8 counterexample: with one chat for alice in the cache and an empty
disk, `get_all_for_user` (the list-all of the claim) returns no message
while `embeddings_search_for_user` returns one scored pair: the search is
not one-pair-per-list-all-message, because `self.get_all_for_user` inside
`embeddings_search_for_user` resolves to the inherent cache-scanning
method, not to the trait method. -/
theorem search_vs_list_all_counterexample :
    get_all_for_user stCachedOnly ⟨2024, 1, 5⟩ "alice" = .ok [] ∧
    embeddings_search_for_user stCachedOnly "alice" [] =
      [(cosine_similarity mAlice.embedding [], mAlice)] ∧
    embeddings_search_for_user stCachedOnly "alice" [] ≠ [] := by
  refine ⟨rfl, rfl, fun h => ?_⟩
  rw [show embeddings_search_for_user stCachedOnly "alice" [] =
    [(cosine_similarity mAlice.embedding [], mAlice)] from rfl] at h
  simp at h

/-- C8 amended: the search returns exactly one `(score, message)` pair
per entry of the in-memory cache whose key names the given user (the
inherent `get_all_for_user`), in that order, untruncated, and each score
is `dot_product` over the product of the `magnitude`s of the message's
embedding and the query vector. -/
theorem search_maps_cache_scan (s : St) (u : String) (q : List Float) :
    (embeddings_search_for_user s u q).length =
      (get_all_for_user_inherent s u).length ∧
    (∀ i : Nat, (embeddings_search_for_user s u q)[i]? =
      ((get_all_for_user_inherent s u)[i]?).map
        (fun c => (cosine_similarity c.embedding q, c))) ∧
    (∀ v1 v2, cosine_similarity v1 v2 =
      dot_product v1 v2 / (magnitude v1 * magnitude v2)) := by
  refine ⟨?_, ?_, fun _ _ => rfl⟩
  · simp [embeddings_search_for_user]
  · intro i
    simp [embeddings_search_for_user, List.getElem?_map]

/-- C10: a cache-missing `get_chat` merges every record of the user's
current-day file into the cache; the mutation is the same whether the
call ends `found` or `notFound`, the call fails exactly when no record
matches the id, and afterwards every record of that file is a cache
hit. -/
theorem get_miss_merges_cache (s : St) (today : Date) (u id : String)
    (l : List ChatModel)
    (hmiss : Cache.find? s.cache (id, u) = none)
    (hfile : s.files u (formatDate today) = some (.parseable l)) :
    (∃ r, get_chat s today u id =
        .ok ({ s with cache := mergeAll s.cache u l }, r)) ∧
    ((∀ c ∈ l, c.hash ≠ id) → get_chat s today u id =
        .ok ({ s with cache := mergeAll s.cache u l }, .notFound)) ∧
    (∀ c ∈ l, ∃ c',
      get_chat { s with cache := mergeAll s.cache u l } today u c.hash =
        .ok ({ s with cache := mergeAll s.cache u l }, .found c')) := by
  refine ⟨?_, ?_, ?_⟩
  · cases hret : Cache.find? (mergeAll s.cache u l) (id, u) with
    | some c =>
      exact ⟨.found c,
        by simp only [get_chat, hmiss, hfile, get_from_fs, hret]⟩
    | none =>
      exact ⟨.notFound,
        by simp only [get_chat, hmiss, hfile, get_from_fs, hret]⟩
  · intro hno
    have hret : Cache.find? (mergeAll s.cache u l) (id, u) = none :=
      (mergeAll_find?_of_not_mem u l s.cache id hno).trans hmiss
    simp only [get_chat, hmiss, hfile, get_from_fs, hret]
  · intro c hcmem
    obtain ⟨c', hc'⟩ := Option.isSome_iff_exists.mp
      (mergeAll_mem_isSome u l s.cache c hcmem)
    exact ⟨c', by simp only [get_chat, hc']⟩

/-- C10 witness: a failed lookup of the unseen id `"zzz"` on the state
whose 2024-01-01 file holds `mOld` caches `mOld`, which is a hit
afterwards. -/
theorem get_miss_merges_cache_witness :
    (∃ r, get_chat stTwoDays ⟨2024, 1, 1⟩ "alice" "zzz" =
        .ok ({ stTwoDays with cache := mergeAll stTwoDays.cache "alice" [mOld] }, r)) ∧
    (get_chat stTwoDays ⟨2024, 1, 1⟩ "alice" "zzz" =
        .ok ({ stTwoDays with cache := mergeAll stTwoDays.cache "alice" [mOld] }, .notFound)) ∧
    (∃ c', get_chat { stTwoDays with cache := mergeAll stTwoDays.cache "alice" [mOld] }
        ⟨2024, 1, 1⟩ "alice" mOld.hash =
        .ok ({ stTwoDays with cache := mergeAll stTwoDays.cache "alice" [mOld] }, .found c')) := by
  have h := get_miss_merges_cache stTwoDays ⟨2024, 1, 1⟩ "alice" "zzz" [mOld]
    rfl rfl
  refine ⟨h.1, h.2.1 ?_, h.2.2 mOld (List.mem_cons_self _ _)⟩
  intro c hc
  rw [List.mem_singleton] at hc
  subst hc
  decide

end Muninn

namespace Muninn

theorem Cache.mem_of_mem_eraseKey (c : Cache) (k : Key)
    (e : Key × ChatModel) (h : e ∈ Cache.eraseKey c k) : e ∈ c := by
  induction c with
  | nil => simp [Cache.eraseKey] at h
  | cons x xs ih =>
    by_cases hx : x.1 = k
    · simp only [Cache.eraseKey, hx, if_true] at h
      exact List.mem_cons_of_mem _ (ih h)
    · simp only [Cache.eraseKey, hx, if_false] at h
      rcases List.mem_cons.mp h with h | h
      · exact h ▸ List.mem_cons_self _ _
      · exact List.mem_cons_of_mem _ (ih h)

theorem save_preserves_other_user (s : St) (d : Date) (uA uB : String)
    (m : ChatModel) (out : St × ChatModel)
    (hAB : uB ≠ uA)
    (hc : ∀ e ∈ s.cache, e.1.2 = uA)
    (hf : ∀ n, s.files uB n = none)
    (hs : save_chat s d uA m = .ok out) :
    (∀ e ∈ out.1.cache, e.1.2 = uA) ∧ (∀ n, out.1.files uB n = none) := by
  cases hcc : s.canCreate uA (formatDate d) with
  | false => simp [save_chat, hcc] at hs
  | true =>
    cases hread : get_from_fs (s.files uA (formatDate d)) with
    | panicked => simp [save_chat, hcc, hread] at hs
    | ok l =>
      simp only [save_chat, hcc, hread, if_true, Outcome.ok.injEq] at hs
      subst hs
      constructor
      · intro e he
        simp only [Cache.insert] at he
        rcases List.mem_cons.mp he with h | h
        · rw [h]
        · exact hc e (Cache.mem_of_mem_eraseKey _ _ _ h)
      · intro n
        cases hw : s.writeOk uA (formatDate d) with
        | true => simp [hw, updFiles, fun h => hAB h, hf n]
        | false => simp [hw, hf n]

theorem runSaves_preserves (uA uB : String) (hAB : uB ≠ uA)
    (evs : List (Date × ChatModel)) :
    ∀ s s' : St,
      (∀ e ∈ s.cache, e.1.2 = uA) → (∀ n, s.files uB n = none) →
      runSaves uA s evs = .ok s' →
      (∀ e ∈ s'.cache, e.1.2 = uA) ∧ (∀ n, s'.files uB n = none) := by
  induction evs with
  | nil =>
    intro s s' hc hf hr
    simp only [runSaves, Outcome.ok.injEq] at hr
    subst hr
    exact ⟨hc, hf⟩
  | cons ev evs ih =>
    obtain ⟨d, m⟩ := ev
    intro s s' hc hf hr
    cases hsave : save_chat s d uA m with
    | panicked => simp [runSaves, hsave] at hr
    | ok p =>
      simp only [runSaves, hsave] at hr
      obtain ⟨hc', hf'⟩ :=
        save_preserves_other_user s d uA uB m p hAB hc hf hsave
      exact ih p.1 s' hc' hf' hr

theorem Cache.find?_eq_none_of_users (c : Cache) (uA uB id : String)
    (hAB : uB ≠ uA) (hc : ∀ e ∈ c, e.1.2 = uA) :
    Cache.find? c (id, uB) = none := by
  induction c with
  | nil => rfl
  | cons e es ih =>
    have hne : e.1 ≠ (id, uB) := by
      intro h
      exact hAB
        ((congrArg Prod.snd h).symm.trans (hc e (List.mem_cons_self _ _)))
    simp only [Cache.find?, hne, if_false]
    exact ih (fun e' he' => hc e' (List.mem_cons_of_mem _ he'))

/-- C7: identity is scoped per user. After any run of saves issued only
under `uA` (starting from a state whose cache holds only `uA` entries and
whose disk holds nothing for `uB`), `get_chat` under a different user
`uB` is `NotFound` for every id. -/
theorem per_user_isolation (s0 : St) (evs : List (Date × ChatModel))
    (uA uB id : String) (today : Date) (s' : St)
    (hAB : uB ≠ uA)
    (hc : ∀ e ∈ s0.cache, e.1.2 = uA)
    (hf : ∀ n, s0.files uB n = none)
    (hrun : runSaves uA s0 evs = .ok s') :
    ∃ s'', get_chat s' today uB id = .ok (s'', .notFound) := by
  obtain ⟨hc', hf'⟩ := runSaves_preserves uA uB hAB evs s0 s' hc hf hrun
  have hfind : Cache.find? s'.cache (id, uB) = none :=
    Cache.find?_eq_none_of_users s'.cache uA uB id hAB hc'
  have hget : get_chat s' today uB id =
      .ok ({ s' with cache := mergeAll s'.cache uB [] }, .notFound) := by
    simp only [get_chat, hfind, hf' (formatDate today), get_from_fs,
      mergeAll, List.foldl]
  exact ⟨_, hget⟩

/-- C7 witness: after saving `mAlice` (hash `"h1"`) for alice on the
pristine filesystem, `get_chat` for bob with id `"h1"` is `NotFound`. -/
theorem per_user_isolation_witness :
    ∃ s', runSaves "alice" emptySt [(⟨2024, 1, 1⟩, mAlice)] = .ok s' ∧
      ∃ s'', get_chat s' ⟨2024, 1, 1⟩ "bob" "h1" = .ok (s'', .notFound) := by
  refine ⟨_, rfl, ?_⟩
  exact per_user_isolation emptySt [(⟨2024, 1, 1⟩, mAlice)] "alice" "bob"
    "h1" ⟨2024, 1, 1⟩ _ (by decide) (by intro e he; simp [emptySt] at he)
    (fun _ => rfl) rfl

end Muninn
